import Mathlib

/-
Verification of the free/occupied space scanner (src/space.rs of paritydb).

The scanner walks a byte buffer partitioned into fixed-width fields (one
header-tag byte plus a fixed-size body) and classifies runs of fields into
Occupied and Empty spaces.  The field codec (the field module) is an external
collaborator not present in the sources; it is modelled from the spec.  The
scanner itself — SpaceIterator with next, peek and move_offset_forward — is a
direct translation of the Rust source.
-/

/-- Modelled from the spec: the error vocabulary of the missing error and field
modules.  A field header that cannot be decoded, and a continuation following a
free slot, are both surfaced as the single named InvalidHeader error kind,
mirroring ErrorKind::Field(field::ErrorKind::InvalidHeader) in the source. -/
inductive ErrorKind where
  | InvalidHeader
  deriving DecidableEq

/-- Modelled from the spec: the four-valued header tag of the missing field
module.  Deleted and Uninitialized both mean the slot is free. -/
inductive Header where
  | Uninitialized
  | Inserted
  | Continued
  | Deleted
  deriving DecidableEq

/-- Modelled from the spec: decoding of a header-tag byte by the missing field
module.  Byte values follow the repository test corpus (0 uninitialized,
1 inserted, 2 continued) and the spec tag order (3 deleted); any other byte is
a decode failure. -/
def decodeHeader (b : Nat) : Except ErrorKind Header :=
  if b = 0 then Except.ok Header.Uninitialized
  else if b = 1 then Except.ok Header.Inserted
  else if b = 2 then Except.ok Header.Continued
  else if b = 3 then Except.ok Header.Deleted
  else Except.error ErrorKind.InvalidHeader

/-- Modelled from the spec: total bytes per field, one header-tag byte plus the
fixed-size body (body size 3 gives field width 4, as in the test corpus). -/
def field_size (field_body_size : Nat) : Nat := 1 + field_body_size

/-- OccupiedSpace from the source: an offset and the byte sub-range of the
scanned buffer covered by the occupied run. -/
structure OccupiedSpace where
  offset : Nat
  data : List Nat
  deriving DecidableEq

/-- EmptySpace from the source: an offset and a length in bytes. -/
structure EmptySpace where
  offset : Nat
  len : Nat
  deriving DecidableEq

/-- Space from the source: the tagged union of the two result shapes. -/
inductive Space where
  | Occupied (s : OccupiedSpace)
  | Empty (s : EmptySpace)
  deriving DecidableEq

/-- Offset of a produced space, for stating ordering properties. -/
def spaceOffset : Space → Nat
  | Space.Occupied o => o.offset
  | Space.Empty e => e.offset

/-- Byte length of a produced space: the data length of an occupied space, the
len field of an empty space. -/
def spaceLen : Space → Nat
  | Space.Occupied o => o.data.length
  | Space.Empty e => e.len

deriving instance DecidableEq for Except

/-- SpaceIterator state from the source: the borrowed buffer, the field body
size, the cursor, and the one-slot peeked lookahead cache. -/
structure SpaceIterator where
  data : List Nat
  field_body_size : Nat
  offset : Nat
  peeked : Option (Except ErrorKind Space)
  deriving DecidableEq

/-- SpaceIterator::new from the source: the cache starts empty. -/
def SpaceIterator.new (data : List Nat) (field_body_size offset : Nat) : SpaceIterator :=
  ⟨data, field_body_size, offset, none⟩

/-- SpaceIterator::move_offset_forward from the source: move the cursor to the
target and drop the cached lookahead exactly when the target is strictly
greater than the cursor; otherwise do nothing. -/
def SpaceIterator.move_offset_forward (s : SpaceIterator) (offset : Nat) : SpaceIterator :=
  if s.offset < offset then { s with offset := offset, peeked := none } else s

/-- Modelled from the spec: the header bytes of the successive complete fields
of a slice, in increasing-offset order, as yielded by the missing field
module's FieldIterator; the sequence ends exactly when fewer than one field
width of bytes remain.  Fuel-indexed by an upper bound on the slice length so
that it computes by structural recursion. -/
def fieldHeadsAux (fs : Nat) : Nat → List Nat → List Nat
  | 0, _ => []
  | n + 1, l =>
    if 0 < fs ∧ fs ≤ l.length then l.headD 0 :: fieldHeadsAux fs n (l.drop fs) else []

/-- Modelled from the spec: the header bytes of the complete fields of a slice. -/
def fieldHeads (fs : Nat) (l : List Nat) : List Nat := fieldHeadsAux fs l.length l

/-- The sub-range of a buffer between two absolute offsets, mirroring Rust
slice indexing data[a..b]. -/
def listSlice (l : List Nat) (a b : Nat) : List Nat := (l.drop a).take (b - a)

/-- The field-walking loop of SpaceIterator::next from the source, one
production step.  Arguments: the whole buffer, the field width, the header
bytes of the remaining complete fields, prev_header, start, and the cursor.
Returns the step result (none when the loop exhausts with no open run) and the
final cursor value. -/
def scanLoop (data : List Nat) (fs : Nat) :
    List Nat → Option Header → Nat → Nat → Option (Except ErrorKind Space) × Nat
  | [], prev, start, off =>
    match prev with
    | some Header.Inserted =>
        (some (Except.ok (Space.Occupied ⟨start, listSlice data start off⟩)), off)
    | some Header.Continued =>
        (some (Except.ok (Space.Occupied ⟨start, listSlice data start off⟩)), off)
    | some Header.Deleted => (some (Except.ok (Space.Empty ⟨start, off - start⟩)), off)
    | some Header.Uninitialized => (some (Except.ok (Space.Empty ⟨start, off - start⟩)), off)
    | none => (none, off)
  | b :: rest, prev, start, off =>
    match decodeHeader b with
    | Except.error e => (some (Except.error e), off)
    | Except.ok Header.Continued =>
      match prev with
      | none => scanLoop data fs rest none (start + fs) (off + fs)
      | some Header.Inserted => scanLoop data fs rest (some Header.Continued) start (off + fs)
      | some Header.Continued => scanLoop data fs rest (some Header.Continued) start (off + fs)
      | some Header.Deleted => (some (Except.error ErrorKind.InvalidHeader), off)
      | some Header.Uninitialized => (some (Except.error ErrorKind.InvalidHeader), off)
    | Except.ok Header.Inserted =>
      match prev with
      | some Header.Inserted =>
          (some (Except.ok (Space.Occupied ⟨start, listSlice data start off⟩)), off)
      | some Header.Continued => scanLoop data fs rest (some Header.Inserted) start (off + fs)
      | none => scanLoop data fs rest (some Header.Inserted) start (off + fs)
      | some Header.Deleted => (some (Except.ok (Space.Empty ⟨start, off - start⟩)), off)
      | some Header.Uninitialized => (some (Except.ok (Space.Empty ⟨start, off - start⟩)), off)
    | Except.ok Header.Deleted =>
      match prev with
      | some Header.Inserted =>
          (some (Except.ok (Space.Occupied ⟨start, listSlice data start off⟩)), off)
      | some Header.Continued =>
          (some (Except.ok (Space.Occupied ⟨start, listSlice data start off⟩)), off)
      | some Header.Deleted => (some (Except.ok (Space.Empty ⟨start, off - start⟩)), off)
      | some Header.Uninitialized => (some (Except.ok (Space.Empty ⟨start, off - start⟩)), off)
      | none => scanLoop data fs rest (some Header.Deleted) start (off + fs)
    | Except.ok Header.Uninitialized =>
      match prev with
      | some Header.Inserted =>
          (some (Except.ok (Space.Occupied ⟨start, listSlice data start off⟩)), off)
      | some Header.Continued =>
          (some (Except.ok (Space.Occupied ⟨start, listSlice data start off⟩)), off)
      | some Header.Deleted => (some (Except.ok (Space.Empty ⟨start, off - start⟩)), off)
      | some Header.Uninitialized => (some (Except.ok (Space.Empty ⟨start, off - start⟩)), off)
      | none => scanLoop data fs rest (some Header.Uninitialized) start (off + fs)

/-- One fresh production step of the scanner from its current cursor, as run by
the body of SpaceIterator::next after the cache and emptiness checks. -/
def runStep (s : SpaceIterator) : Option (Except ErrorKind Space) × Nat :=
  scanLoop s.data (field_size s.field_body_size)
    (fieldHeads (field_size s.field_body_size) (s.data.drop s.offset)) none s.offset s.offset

/-- Outcome of a call to SpaceIterator::next.  The oob constructor models the
Rust panic raised by the slice indexing data[offset..] when the cursor is
strictly past the buffer length; out r models a normal return of r. -/
inductive NextOut where
  | oob
  | out (r : Option (Except ErrorKind Space))
  deriving DecidableEq

/-- SpaceIterator::next from the source: return the cached lookahead if
present, panic if the cursor is past the end of the buffer, return none on an
empty unconsumed tail, and otherwise run one step of the field-walking loop,
repositioning the cursor to the loop's final cursor value. -/
def SpaceIterator.next (s : SpaceIterator) : NextOut × SpaceIterator :=
  match s.peeked with
  | some r => (NextOut.out (some r), { s with peeked := none })
  | none =>
    if s.data.length < s.offset then (NextOut.oob, s)
    else if s.data.drop s.offset = [] then (NextOut.out none, s)
    else (NextOut.out (runStep s).fst, { s with offset := (runStep s).snd })

/-- SpaceIterator::peek from the source: when the cache is empty, run next and
store its result in the cache; return the (possibly cached) result. -/
def SpaceIterator.peek (s : SpaceIterator) : NextOut × SpaceIterator :=
  match s.peeked with
  | some r => (NextOut.out (some r), s)
  | none =>
    match s.next with
    | (NextOut.oob, s2) => (NextOut.oob, s2)
    | (NextOut.out r, s2) => (NextOut.out r, { s2 with peeked := r })

/-- The field width is always positive: a field holds at least its header byte. -/
theorem field_size_pos (n : Nat) : 0 < field_size n := by
  unfold field_size
  omega

/-- The fuel argument of fieldHeadsAux is irrelevant once it dominates the
slice length. -/
theorem fieldHeadsAux_congr (fs : Nat) :
    ∀ n m l, List.length l ≤ n → List.length l ≤ m →
      fieldHeadsAux fs n l = fieldHeadsAux fs m l := by
  intro n
  induction n with
  | zero =>
    intro m l hn hm
    have hl : l = [] := List.length_eq_zero.mp (Nat.le_zero.mp hn)
    subst hl
    cases m with
    | zero => rfl
    | succ m =>
      have hc : ¬ (0 < fs ∧ fs ≤ ([] : List Nat).length) := by
        simp only [List.length_nil]
        omega
      simp only [fieldHeadsAux, if_neg hc]
  | succ n ih =>
    intro m l hn hm
    cases m with
    | zero =>
      have hl : l = [] := List.length_eq_zero.mp (Nat.le_zero.mp hm)
      subst hl
      have hc : ¬ (0 < fs ∧ fs ≤ ([] : List Nat).length) := by
        simp only [List.length_nil]
        omega
      simp only [fieldHeadsAux, if_neg hc]
    | succ m =>
      simp only [fieldHeadsAux]
      by_cases hc : 0 < fs ∧ fs ≤ l.length
      · rw [if_pos hc, if_pos hc]
        have h1 : (l.drop fs).length ≤ n := by
          rw [List.length_drop]
          omega
        have h2 : (l.drop fs).length ≤ m := by
          rw [List.length_drop]
          omega
        rw [ih m (l.drop fs) h1 h2]
      · rw [if_neg hc, if_neg hc]

/-- Unfolding fieldHeads when at least one complete field remains. -/
theorem fieldHeads_cons (fs : Nat) (l : List Nat) (h0 : 0 < fs) (hle : fs ≤ l.length) :
    fieldHeads fs l = l.headD 0 :: fieldHeads fs (l.drop fs) := by
  unfold fieldHeads
  obtain ⟨n, hn⟩ : ∃ n, l.length = n + 1 := ⟨l.length - 1, by omega⟩
  rw [hn]
  simp only [fieldHeadsAux, if_pos (And.intro h0 hle)]
  have h1 : (l.drop fs).length ≤ n := by
    rw [List.length_drop]
    omega
  rw [fieldHeadsAux_congr fs n (l.drop fs).length (l.drop fs) h1 (Nat.le_refl _)]

/-- fieldHeads is empty when no complete field remains (or the width is zero). -/
theorem fieldHeads_nil (fs : Nat) (l : List Nat) (h : ¬ (0 < fs ∧ fs ≤ l.length)) :
    fieldHeads fs l = [] := by
  unfold fieldHeads
  cases hn : l.length with
  | zero => rfl
  | succ n =>
    have h2 : ¬ (0 < fs ∧ fs ≤ l.length) := h
    simp only [fieldHeadsAux, if_neg h2]

/-- Inversion: a nonempty fieldHeads result determines its head and tail. -/
theorem fieldHeads_eq_cons (fs : Nat) (l : List Nat) (b : Nat) (rest : List Nat)
    (h : fieldHeads fs l = b :: rest) :
    0 < fs ∧ fs ≤ l.length ∧ b = l.headD 0 ∧ rest = fieldHeads fs (l.drop fs) := by
  by_cases hc : 0 < fs ∧ fs ≤ l.length
  · rw [fieldHeads_cons fs l hc.1 hc.2] at h
    injection h with h1 h2
    exact ⟨hc.1, hc.2, h1.symm, h2.symm⟩
  · rw [fieldHeads_nil fs l hc] at h
    simp at h

/-- Relation between prev_header, run start and cursor maintained by the loop:
with no folded field the cursor sits at the run start; after folding a free
field the cursor is exactly one field past the run start; in a live run the
cursor is a positive number of fields past the run start and the byte at the
run start decodes as Inserted. -/
def prevInv (data : List Nat) (fs : Nat) : Option Header → Nat → Nat → Prop
  | none, start, off => off = start
  | some Header.Inserted, start, off =>
      (∃ k, 0 < k ∧ off = start + k * fs) ∧
        decodeHeader ((data.drop start).headD 0) = Except.ok Header.Inserted
  | some Header.Continued, start, off =>
      (∃ k, 0 < k ∧ off = start + k * fs) ∧
        decodeHeader ((data.drop start).headD 0) = Except.ok Header.Inserted
  | some Header.Deleted, start, off => off = start + fs
  | some Header.Uninitialized, start, off => off = start + fs

/-- Postcondition of one production step: the final cursor stays within the
buffer; an emitted EmptySpace is exactly one field wide and ends at the final
cursor; an emitted OccupiedSpace is the exact sub-range up to the final
cursor, a positive number of fields long, and starts at an Inserted field; a
step with no result leaves no complete field before the final cursor; and
after a successful result the field at the final cursor, when present,
decodes to a non-Continued header. -/
def loopPost (data : List Nat) (fs start : Nat) (p : Option (Except ErrorKind Space) × Nat) :
    Prop :=
  p.2 ≤ data.length ∧
  (∀ o l, p.1 = some (Except.ok (Space.Empty ⟨o, l⟩)) → l = fs ∧ o + fs = p.2 ∧ start ≤ o) ∧
  (∀ o d, p.1 = some (Except.ok (Space.Occupied ⟨o, d⟩)) →
      d = listSlice data o p.2 ∧ o + d.length = p.2 ∧ (∃ k, 0 < k ∧ d.length = k * fs) ∧
      decodeHeader ((data.drop o).headD 0) = Except.ok Header.Inserted ∧ start ≤ o) ∧
  (p.1 = none → fieldHeads fs (data.drop p.2) = []) ∧
  ((∃ sp, p.1 = some (Except.ok sp)) →
      fieldHeads fs (data.drop p.2) = [] ∨
      (∃ h, decodeHeader ((data.drop p.2).headD 0) = Except.ok h ∧ h ≠ Header.Continued ∧
        fs ≤ (data.drop p.2).length))

/-- The step postcondition only weakens when the run start decreases. -/
theorem loopPost_mono (data : List Nat) (fs start start' : Nat)
    (hss : start ≤ start') (p : Option (Except ErrorKind Space) × Nat)
    (hp : loopPost data fs start' p) : loopPost data fs start p := by
  obtain ⟨h1, h2, h3, h4, h5⟩ := hp
  refine ⟨h1, ?_, ?_, h4, h5⟩
  · intro o l h
    obtain ⟨a, b, c⟩ := h2 o l h
    exact ⟨a, b, Nat.le_trans hss c⟩
  · intro o d h
    obtain ⟨a, b, c, d2, e⟩ := h3 o d h
    exact ⟨a, b, c, d2, Nat.le_trans hss e⟩

/-- The step postcondition for a step ending in an error. -/
theorem loopPost_error (data : List Nat) (fs start off : Nat) (e : ErrorKind)
    (hoff : off ≤ data.length) :
    loopPost data fs start (some (Except.error e), off) := by
  refine ⟨hoff, ?_, ?_, ?_, ?_⟩
  · intro o l h
    simp at h
  · intro o d h
    simp at h
  · intro h
    simp at h
  · rintro ⟨sp, h⟩
    simp at h

/-- The step postcondition for a step ending with no result. -/
theorem loopPost_none (data : List Nat) (fs start off : Nat)
    (hoff : off ≤ data.length) (hnil : fieldHeads fs (data.drop off) = []) :
    loopPost data fs start (none, off) := by
  refine ⟨hoff, ?_, ?_, ?_, ?_⟩
  · intro o l h
    simp at h
  · intro o d h
    simp at h
  · intro _
    exact hnil
  · rintro ⟨sp, h⟩
    simp at h

/-- The step postcondition for a step emitting an EmptySpace. -/
theorem loopPost_empty (data : List Nat) (fs start off : Nat)
    (hoff : off ≤ data.length) (hrun : off = start + fs)
    (hclose : fieldHeads fs (data.drop off) = [] ∨
      (∃ h, decodeHeader ((data.drop off).headD 0) = Except.ok h ∧ h ≠ Header.Continued ∧
        fs ≤ (data.drop off).length)) :
    loopPost data fs start (some (Except.ok (Space.Empty ⟨start, off - start⟩)), off) := by
  refine ⟨hoff, ?_, ?_, ?_, ?_⟩
  · intro o l h
    simp at h
    obtain ⟨h1, h2⟩ := h
    refine ⟨by omega, by omega, by omega⟩
  · intro o d h
    simp at h
  · intro h
    simp at h
  · intro _
    exact hclose

/-- The step postcondition for a step emitting an OccupiedSpace. -/
theorem loopPost_occupied (data : List Nat) (fs start off : Nat)
    (hoff : off ≤ data.length) (hrun : ∃ k, 0 < k ∧ off = start + k * fs)
    (hins : decodeHeader ((data.drop start).headD 0) = Except.ok Header.Inserted)
    (hclose : fieldHeads fs (data.drop off) = [] ∨
      (∃ h, decodeHeader ((data.drop off).headD 0) = Except.ok h ∧ h ≠ Header.Continued ∧
        fs ≤ (data.drop off).length)) :
    loopPost data fs start (some (Except.ok (Space.Occupied ⟨start, listSlice data start off⟩)), off) := by
  obtain ⟨k, hk, hoffeq⟩ := hrun
  have hstartle : start ≤ off := by
    rw [hoffeq]
    exact Nat.le_add_right start (k * fs)
  have hlen : (listSlice data start off).length = off - start := by
    unfold listSlice
    rw [List.length_take, List.length_drop]
    exact min_eq_left (Nat.sub_le_sub_right hoff start)
  refine ⟨hoff, ?_, ?_, ?_, ?_⟩
  · intro o l h
    simp at h
  · intro o d h
    simp at h
    obtain ⟨h1, h2⟩ := h
    subst h1
    subst h2
    refine ⟨rfl, by omega, ⟨k, hk, ?_⟩, hins, Nat.le_refl start⟩
    rw [hlen, hoffeq, Nat.add_sub_cancel_left]
  · intro h
    simp at h
  · intro _
    exact hclose

/-- Master invariant lemma for one production step: starting from any loop
state satisfying prevInv, with the heads list being the complete fields of the
buffer from the cursor on, the loop result satisfies loopPost. -/
theorem scanLoop_post (data : List Nat) (fs : Nat) :
    ∀ heads prev start off,
      heads = fieldHeads fs (data.drop off) →
      off ≤ data.length →
      prevInv data fs prev start off →
      loopPost data fs start (scanLoop data fs heads prev start off) := by
  intro heads
  induction heads with
  | nil =>
    intro prev start off hh hoff hinv
    cases prev with
    | none =>
      simp only [scanLoop]
      exact loopPost_none data fs start off hoff hh.symm
    | some hp =>
      cases hp with
      | Inserted =>
        simp only [scanLoop]
        exact loopPost_occupied data fs start off hoff hinv.1 hinv.2 (Or.inl hh.symm)
      | Continued =>
        simp only [scanLoop]
        exact loopPost_occupied data fs start off hoff hinv.1 hinv.2 (Or.inl hh.symm)
      | Deleted =>
        simp only [scanLoop]
        exact loopPost_empty data fs start off hoff hinv (Or.inl hh.symm)
      | Uninitialized =>
        simp only [scanLoop]
        exact loopPost_empty data fs start off hoff hinv (Or.inl hh.symm)
  | cons b rest ih =>
    intro prev start off hh hoff hinv
    obtain ⟨h0, hle, hb, hrest⟩ := fieldHeads_eq_cons fs (data.drop off) b rest hh.symm
    have hlendrop : (data.drop off).length = data.length - off := List.length_drop off data
    have hofffs : off + fs ≤ data.length := by omega
    have hdd : (data.drop off).drop fs = data.drop (off + fs) := by
      rw [List.drop_drop, Nat.add_comm]
    have hrest2 : rest = fieldHeads fs (data.drop (off + fs)) := by
      rw [hrest, hdd]
    cases hdec : decodeHeader b with
    | error e =>
      simp only [scanLoop, hdec]
      exact loopPost_error data fs start off e hoff
    | ok h =>
      cases h with
      | Continued =>
        cases prev with
        | none =>
          simp only [scanLoop, hdec]
          have h3 : off = start := hinv
          have hinv2 : prevInv data fs none (start + fs) (off + fs) := by
            show off + fs = start + fs
            omega
          exact loopPost_mono data fs start (start + fs) (Nat.le_add_right start fs) _
            (ih none (start + fs) (off + fs) hrest2 hofffs hinv2)
        | some hp =>
          cases hp with
          | Inserted =>
            simp only [scanLoop, hdec]
            obtain ⟨⟨k, hk, hke⟩, hdst⟩ := hinv
            have hinv2 : prevInv data fs (some Header.Continued) start (off + fs) := by
              refine ⟨⟨k + 1, by omega, ?_⟩, hdst⟩
              rw [hke]
              ring
            exact ih (some Header.Continued) start (off + fs) hrest2 hofffs hinv2
          | Continued =>
            simp only [scanLoop, hdec]
            obtain ⟨⟨k, hk, hke⟩, hdst⟩ := hinv
            have hinv2 : prevInv data fs (some Header.Continued) start (off + fs) := by
              refine ⟨⟨k + 1, by omega, ?_⟩, hdst⟩
              rw [hke]
              ring
            exact ih (some Header.Continued) start (off + fs) hrest2 hofffs hinv2
          | Deleted =>
            simp only [scanLoop, hdec]
            exact loopPost_error data fs start off ErrorKind.InvalidHeader hoff
          | Uninitialized =>
            simp only [scanLoop, hdec]
            exact loopPost_error data fs start off ErrorKind.InvalidHeader hoff
      | Inserted =>
        cases prev with
        | none =>
          simp only [scanLoop, hdec]
          have h3 : off = start := hinv
          have hinv2 : prevInv data fs (some Header.Inserted) start (off + fs) := by
            refine ⟨⟨1, Nat.one_pos, by rw [Nat.one_mul]; omega⟩, ?_⟩
            rw [← h3, ← hb]
            exact hdec
          exact ih (some Header.Inserted) start (off + fs) hrest2 hofffs hinv2
        | some hp =>
          cases hp with
          | Inserted =>
            simp only [scanLoop, hdec]
            exact loopPost_occupied data fs start off hoff hinv.1 hinv.2
              (Or.inr ⟨Header.Inserted, by rw [← hb]; exact hdec, by decide, hle⟩)
          | Continued =>
            simp only [scanLoop, hdec]
            obtain ⟨⟨k, hk, hke⟩, hdst⟩ := hinv
            have hinv2 : prevInv data fs (some Header.Inserted) start (off + fs) := by
              refine ⟨⟨k + 1, by omega, ?_⟩, hdst⟩
              rw [hke]
              ring
            exact ih (some Header.Inserted) start (off + fs) hrest2 hofffs hinv2
          | Deleted =>
            simp only [scanLoop, hdec]
            exact loopPost_empty data fs start off hoff hinv
              (Or.inr ⟨Header.Inserted, by rw [← hb]; exact hdec, by decide, hle⟩)
          | Uninitialized =>
            simp only [scanLoop, hdec]
            exact loopPost_empty data fs start off hoff hinv
              (Or.inr ⟨Header.Inserted, by rw [← hb]; exact hdec, by decide, hle⟩)
      | Deleted =>
        cases prev with
        | none =>
          simp only [scanLoop, hdec]
          have h3 : off = start := hinv
          have hinv2 : prevInv data fs (some Header.Deleted) start (off + fs) := by
            show off + fs = start + fs
            omega
          exact ih (some Header.Deleted) start (off + fs) hrest2 hofffs hinv2
        | some hp =>
          cases hp with
          | Inserted =>
            simp only [scanLoop, hdec]
            exact loopPost_occupied data fs start off hoff hinv.1 hinv.2
              (Or.inr ⟨Header.Deleted, by rw [← hb]; exact hdec, by decide, hle⟩)
          | Continued =>
            simp only [scanLoop, hdec]
            exact loopPost_occupied data fs start off hoff hinv.1 hinv.2
              (Or.inr ⟨Header.Deleted, by rw [← hb]; exact hdec, by decide, hle⟩)
          | Deleted =>
            simp only [scanLoop, hdec]
            exact loopPost_empty data fs start off hoff hinv
              (Or.inr ⟨Header.Deleted, by rw [← hb]; exact hdec, by decide, hle⟩)
          | Uninitialized =>
            simp only [scanLoop, hdec]
            exact loopPost_empty data fs start off hoff hinv
              (Or.inr ⟨Header.Deleted, by rw [← hb]; exact hdec, by decide, hle⟩)
      | Uninitialized =>
        cases prev with
        | none =>
          simp only [scanLoop, hdec]
          have h3 : off = start := hinv
          have hinv2 : prevInv data fs (some Header.Uninitialized) start (off + fs) := by
            show off + fs = start + fs
            omega
          exact ih (some Header.Uninitialized) start (off + fs) hrest2 hofffs hinv2
        | some hp =>
          cases hp with
          | Inserted =>
            simp only [scanLoop, hdec]
            exact loopPost_occupied data fs start off hoff hinv.1 hinv.2
              (Or.inr ⟨Header.Uninitialized, by rw [← hb]; exact hdec, by decide, hle⟩)
          | Continued =>
            simp only [scanLoop, hdec]
            exact loopPost_occupied data fs start off hoff hinv.1 hinv.2
              (Or.inr ⟨Header.Uninitialized, by rw [← hb]; exact hdec, by decide, hle⟩)
          | Deleted =>
            simp only [scanLoop, hdec]
            exact loopPost_empty data fs start off hoff hinv
              (Or.inr ⟨Header.Uninitialized, by rw [← hb]; exact hdec, by decide, hle⟩)
          | Uninitialized =>
            simp only [scanLoop, hdec]
            exact loopPost_empty data fs start off hoff hinv
              (Or.inr ⟨Header.Uninitialized, by rw [← hb]; exact hdec, by decide, hle⟩)

/-- Once a field has been folded into the run (prev_header is not None), the
run start never moves again: any successful result emitted by the rest of the
loop carries the current start as its offset. -/
theorem scanLoop_frozen (data : List Nat) (fs : Nat) :
    ∀ heads prev start off, prev ≠ none →
      ∀ sp offE, scanLoop data fs heads prev start off = (some (Except.ok sp), offE) →
        spaceOffset sp = start := by
  intro heads
  induction heads with
  | nil =>
    intro prev start off hne sp offE h
    cases prev with
    | none => exact absurd rfl hne
    | some hp =>
      cases hp <;>
        · simp only [scanLoop] at h
          injection h with h1 h2
          injection h1 with h1
          injection h1 with h1
          rw [← h1]
          rfl
  | cons b rest ih =>
    intro prev start off hne sp offE h
    cases hdec : decodeHeader b with
    | error e =>
      simp only [scanLoop, hdec] at h
      injection h with h1 h2
      simp at h1
    | ok hd =>
      cases prev with
      | none => exact absurd rfl hne
      | some hp =>
        cases hd with
        | Continued =>
          cases hp with
          | Inserted =>
            simp only [scanLoop, hdec] at h
            exact ih (some Header.Continued) start (off + fs) (by simp) sp offE h
          | Continued =>
            simp only [scanLoop, hdec] at h
            exact ih (some Header.Continued) start (off + fs) (by simp) sp offE h
          | Deleted =>
            simp only [scanLoop, hdec] at h
            injection h with h1 h2
            simp at h1
          | Uninitialized =>
            simp only [scanLoop, hdec] at h
            injection h with h1 h2
            simp at h1
        | Inserted =>
          cases hp with
          | Inserted =>
            simp only [scanLoop, hdec] at h
            injection h with h1 h2
            injection h1 with h1
            injection h1 with h1
            rw [← h1]
            rfl
          | Continued =>
            simp only [scanLoop, hdec] at h
            exact ih (some Header.Inserted) start (off + fs) (by simp) sp offE h
          | Deleted =>
            simp only [scanLoop, hdec] at h
            injection h with h1 h2
            injection h1 with h1
            injection h1 with h1
            rw [← h1]
            rfl
          | Uninitialized =>
            simp only [scanLoop, hdec] at h
            injection h with h1 h2
            injection h1 with h1
            injection h1 with h1
            rw [← h1]
            rfl
        | Deleted =>
          cases hp <;>
            · simp only [scanLoop, hdec] at h
              injection h with h1 h2
              injection h1 with h1
              injection h1 with h1
              rw [← h1]
              rfl
        | Uninitialized =>
          cases hp <;>
            · simp only [scanLoop, hdec] at h
              injection h with h1 h2
              injection h1 with h1
              injection h1 with h1
              rw [← h1]
              rfl

/-- A fresh loop entered at a field that decodes to a non-Continued header
emits its successful result, if any, at exactly the entry cursor. -/
theorem scanLoop_entry (data : List Nat) (fs : Nat) (b : Nat) (rest : List Nat)
    (start : Nat) (h : Header) (hdec : decodeHeader b = Except.ok h)
    (hne : h ≠ Header.Continued) :
    ∀ sp offE, scanLoop data fs (b :: rest) none start start = (some (Except.ok sp), offE) →
      spaceOffset sp = start := by
  intro sp offE hEq
  cases h with
  | Continued => exact absurd rfl hne
  | Inserted =>
    simp only [scanLoop, hdec] at hEq
    exact scanLoop_frozen data fs rest (some Header.Inserted) start (start + fs) (by simp)
      sp offE hEq
  | Deleted =>
    simp only [scanLoop, hdec] at hEq
    exact scanLoop_frozen data fs rest (some Header.Deleted) start (start + fs) (by simp)
      sp offE hEq
  | Uninitialized =>
    simp only [scanLoop, hdec] at hEq
    exact scanLoop_frozen data fs rest (some Header.Uninitialized) start (start + fs) (by simp)
      sp offE hEq

/-- The postcondition instantiated at the scanner's fresh production step. -/
theorem runStep_post (s : SpaceIterator) (hle : s.offset ≤ s.data.length) :
    loopPost s.data (field_size s.field_body_size) s.offset (runStep s) :=
  scanLoop_post s.data (field_size s.field_body_size) _ none s.offset s.offset rfl hle rfl

/-- Inversion of a successful (non-cached) call to next: the cursor was within
bounds, the unconsumed tail was nonempty, the result is the fresh step result,
and the new state repositions the cursor to the step's final cursor. -/
theorem next_inv (s s' : SpaceIterator) (r : Except ErrorKind Space)
    (hpk : s.peeked = none)
    (h : s.next = (NextOut.out (some r), s')) :
    s.offset ≤ s.data.length ∧ s.data.drop s.offset ≠ [] ∧
      (runStep s).fst = some r ∧ s' = { s with offset := (runStep s).snd } := by
  obtain ⟨d, fb, off, pk⟩ := s
  simp only at hpk
  subst hpk
  by_cases h1 : d.length < off
  · simp only [SpaceIterator.next, if_pos h1] at h
    injection h with h1 h2
    simp at h1
  · by_cases h2 : d.drop off = []
    · simp only [SpaceIterator.next, if_neg h1, if_pos h2] at h
      injection h with h3 h4
      simp at h3
    · simp only [SpaceIterator.next, if_neg h1, if_neg h2] at h
      injection h with h3 h4
      injection h3 with h3
      exact ⟨Nat.not_lt.mp h1, h2, h3, h4.symm⟩

/-- A production step whose first field is free and whose second field is
Inserted closes the one-field empty run without consuming the second field;
when the second field is instead Continued, the step fails with InvalidHeader.
In both cases the cursor ends one field past where it started. -/
theorem next_free_then (s : SpaceIterator) (h2hdr : Header)
    (hpk : s.peeked = none)
    (hfree : decodeHeader ((s.data.drop s.offset).headD 0) = Except.ok Header.Deleted ∨
             decodeHeader ((s.data.drop s.offset).headD 0) = Except.ok Header.Uninitialized)
    (hsecond : decodeHeader ((s.data.drop (s.offset + field_size s.field_body_size)).headD 0)
        = Except.ok h2hdr)
    (hlen : 2 * field_size s.field_body_size ≤ (s.data.drop s.offset).length) :
    (h2hdr = Header.Inserted →
      s.next = (NextOut.out (some (Except.ok
          (Space.Empty ⟨s.offset, field_size s.field_body_size⟩))),
        { s with offset := s.offset + field_size s.field_body_size }))
    ∧ (h2hdr = Header.Continued →
      s.next = (NextOut.out (some (Except.error ErrorKind.InvalidHeader)),
        { s with offset := s.offset + field_size s.field_body_size })) := by
  obtain ⟨d, fb, off, pk⟩ := s
  simp only at hpk hfree hsecond hlen
  subst hpk
  have hfs0 : 0 < field_size fb := field_size_pos fb
  set fs := field_size fb with hfsdef
  have hlen1 : fs ≤ (d.drop off).length := by omega
  have hlen2 : (d.drop off).length = d.length - off := List.length_drop off d
  have hoffle : ¬ d.length < off := by omega
  have hne : ¬ d.drop off = [] := by
    intro hcon
    rw [hcon] at hlen1
    simp only [List.length_nil] at hlen1
    omega
  have hdd : (d.drop off).drop fs = d.drop (off + fs) := by
    rw [List.drop_drop, Nat.add_comm]
  have hlen3 : fs ≤ ((d.drop off).drop fs).length := by
    rw [List.length_drop]
    omega
  have hheads : fieldHeads fs (d.drop off)
      = (d.drop off).headD 0 :: (d.drop (off + fs)).headD 0
        :: fieldHeads fs ((d.drop (off + fs)).drop fs) := by
    rw [fieldHeads_cons fs (d.drop off) hfs0 hlen1,
      fieldHeads_cons fs ((d.drop off).drop fs) hfs0 hlen3, hdd]
  have hnext : SpaceIterator.next ⟨d, fb, off, none⟩
      = (NextOut.out (runStep ⟨d, fb, off, none⟩).fst,
         ⟨d, fb, (runStep ⟨d, fb, off, none⟩).snd, none⟩) := by
    simp only [SpaceIterator.next, if_neg hoffle, if_neg hne]
  constructor
  · intro heq
    subst heq
    have hrunval : runStep ⟨d, fb, off, none⟩
        = (some (Except.ok (Space.Empty ⟨off, fs⟩)), off + fs) := by
      show scanLoop d fs (fieldHeads fs (d.drop off)) none off off = _
      rw [hheads]
      rcases hfree with hf | hf
      · simp only [scanLoop, hf, hsecond, Nat.add_sub_cancel_left]
      · simp only [scanLoop, hf, hsecond, Nat.add_sub_cancel_left]
    rw [hnext, hrunval]
  · intro heq
    subst heq
    have hrunval : runStep ⟨d, fb, off, none⟩
        = (some (Except.error ErrorKind.InvalidHeader), off + fs) := by
      show scanLoop d fs (fieldHeads fs (d.drop off)) none off off = _
      rw [hheads]
      rcases hfree with hf | hf
      · simp only [scanLoop, hf, hsecond]
      · simp only [scanLoop, hf, hsecond]
    rw [hnext, hrunval]

/-- A leading Continued field (no run open) is silently skipped: the pull
behaves exactly as a pull from a scanner whose cursor already sits one field
width further. -/
theorem next_skip_continued (s : SpaceIterator)
    (hpk : s.peeked = none)
    (hb : decodeHeader ((s.data.drop s.offset).headD 0) = Except.ok Header.Continued)
    (hlen : field_size s.field_body_size ≤ (s.data.drop s.offset).length) :
    s.next = SpaceIterator.next { s with offset := s.offset + field_size s.field_body_size } := by
  obtain ⟨d, fb, off, pk⟩ := s
  simp only at hpk hb hlen
  subst hpk
  have hfs0 : 0 < field_size fb := field_size_pos fb
  set fs := field_size fb with hfsdef
  have hlen2 : (d.drop off).length = d.length - off := List.length_drop off d
  have hoffle : ¬ d.length < off := by omega
  have hne : ¬ d.drop off = [] := by
    intro hcon
    have hlen4 := hlen
    rw [hcon] at hlen4
    simp only [List.length_nil] at hlen4
    omega
  have hoffle2 : ¬ d.length < off + fs := by omega
  have hdd : (d.drop off).drop fs = d.drop (off + fs) := by
    rw [List.drop_drop, Nat.add_comm]
  have hheads : fieldHeads fs (d.drop off)
      = (d.drop off).headD 0 :: fieldHeads fs (d.drop (off + fs)) := by
    rw [fieldHeads_cons fs (d.drop off) hfs0 hlen, hdd]
  have hstep : runStep ⟨d, fb, off, none⟩
      = scanLoop d fs (fieldHeads fs (d.drop (off + fs))) none (off + fs) (off + fs) := by
    show scanLoop d fs (fieldHeads fs (d.drop off)) none off off = _
    rw [hheads]
    simp only [scanLoop, hb]
  by_cases hne2 : d.drop (off + fs) = []
  · have hnil : fieldHeads fs (d.drop (off + fs)) = [] := by
      rw [hne2]
      exact fieldHeads_nil fs [] (by simp only [List.length_nil]; omega)
    simp only [SpaceIterator.next, if_neg hoffle, if_neg hoffle2, if_neg hne, if_pos hne2,
      hstep, hnil]
    rfl
  · simp only [SpaceIterator.next, if_neg hoffle, if_neg hoffle2, if_neg hne, if_neg hne2, hstep]
    rfl

/-- After a pull that returned no result, the scanner is in a fixpoint: the
cache is still empty and every further pull again returns no result with the
state unchanged. -/
theorem next_none_fix (s s1 : SpaceIterator) (hpk : s.peeked = none)
    (h : s.next = (NextOut.out none, s1)) :
    s1.peeked = none ∧ s1.next = (NextOut.out none, s1) := by
  obtain ⟨d, fb, off, pk⟩ := s
  simp only at hpk
  subst hpk
  by_cases h1 : d.length < off
  · simp only [SpaceIterator.next, if_pos h1] at h
    injection h with ha hb
    simp at ha
  · by_cases h2 : d.drop off = []
    · simp only [SpaceIterator.next, if_neg h1, if_pos h2] at h
      injection h with ha hb
      subst hb
      refine ⟨rfl, ?_⟩
      simp only [SpaceIterator.next, if_neg h1, if_pos h2]
    · simp only [SpaceIterator.next, if_neg h1, if_neg h2] at h
      injection h with ha hb
      injection ha with ha
      have hle : off ≤ d.length := Nat.not_lt.mp h1
      have hpost := runStep_post ⟨d, fb, off, none⟩ hle
      have hnil : fieldHeads (field_size fb) (d.drop (runStep ⟨d, fb, off, none⟩).snd) = [] :=
        hpost.2.2.2.1 ha
      have hsndle : (runStep ⟨d, fb, off, none⟩).snd ≤ d.length := hpost.1
      subst hb
      refine ⟨rfl, ?_⟩
      have h4 : ¬ d.length < (runStep ⟨d, fb, off, none⟩).snd := by omega
      by_cases h3 : d.drop (runStep ⟨d, fb, off, none⟩).snd = []
      · simp only [SpaceIterator.next, if_neg h4, if_pos h3]
      · have hrs : runStep ⟨d, fb, (runStep ⟨d, fb, off, none⟩).snd, none⟩
            = (none, (runStep ⟨d, fb, off, none⟩).snd) := by
          show scanLoop d (field_size fb)
              (fieldHeads (field_size fb) (d.drop (runStep ⟨d, fb, off, none⟩).snd)) none _ _ = _
          rw [hnil]
          rfl
        simp only [SpaceIterator.next, if_neg h4, if_neg h3, hrs]

/-- C1: every EmptySpace the scanner produces, whether pulled via next or
observed via peek, has len equal to exactly one field width; in consequence
adjacent free fields are reported as separate one-field EmptySpace results,
never merged. -/
theorem C1_empty_len (s s' : SpaceIterator) (o l : Nat)
    (hpk : s.peeked = none) :
    (s.next = (NextOut.out (some (Except.ok (Space.Empty ⟨o, l⟩))), s') →
      l = field_size s.field_body_size)
    ∧ ((s.peek).fst = NextOut.out (some (Except.ok (Space.Empty ⟨o, l⟩))) →
      l = field_size s.field_body_size) := by
  constructor
  · intro h
    obtain ⟨hle, hne, hr, hs⟩ := next_inv s s' _ hpk h
    exact ((runStep_post s hle).2.1 o l hr).1
  · intro h
    rcases hnx : s.next with ⟨a, s2⟩
    cases a with
    | oob =>
      simp only [SpaceIterator.peek, hpk, hnx] at h
      exact NextOut.noConfusion h
    | out r =>
      simp only [SpaceIterator.peek, hpk, hnx] at h
      injection h with h3
      subst h3
      obtain ⟨hle, hne, hr, hs⟩ := next_inv s s2 _ hpk hnx
      exact ((runStep_post s hle).2.1 o l hr).1

/-- Witness for C1 at the buffer of two adjacent free fields: the scanner
reports Empty at offset 0 of width 4 and then Empty at offset 4 of width 4,
each exactly one field wide. -/
theorem C1_empty_len_witness :
    4 = field_size 3
    ∧ (SpaceIterator.next ⟨[0, 0, 0, 0, 0, 0, 0, 0], 3, 4, none⟩).fst
        = NextOut.out (some (Except.ok (Space.Empty ⟨4, 4⟩))) := by
  refine ⟨?_, rfl⟩
  exact (C1_empty_len (SpaceIterator.new [0, 0, 0, 0, 0, 0, 0, 0] 3 0)
    ⟨[0, 0, 0, 0, 0, 0, 0, 0], 3, 4, none⟩ 0 4 rfl).1 rfl

/-- C2: when the step has folded a free field and the next field decodes as
Inserted, the step closes the empty run by emitting Empty at the run start,
one field wide, and leaves the cursor on the unconsumed Inserted field, which
therefore starts the next result on the following pull. -/
theorem C2_free_then_inserted (s : SpaceIterator)
    (hpk : s.peeked = none)
    (hfree : decodeHeader ((s.data.drop s.offset).headD 0) = Except.ok Header.Deleted ∨
             decodeHeader ((s.data.drop s.offset).headD 0) = Except.ok Header.Uninitialized)
    (hins : decodeHeader ((s.data.drop (s.offset + field_size s.field_body_size)).headD 0)
        = Except.ok Header.Inserted)
    (hlen : 2 * field_size s.field_body_size ≤ (s.data.drop s.offset).length) :
    s.next = (NextOut.out (some (Except.ok
        (Space.Empty ⟨s.offset, field_size s.field_body_size⟩))),
      { s with offset := s.offset + field_size s.field_body_size }) :=
  (next_free_then s Header.Inserted hpk hfree hins hlen).1 rfl

/-- Witness for C2: buffer [0,0,0,0,1,0,0,0] with body size 3 yields Empty of
offset 0 and width 4, with the cursor left at 4, and the following pull yields
Occupied at offset 4 from the re-examined Inserted field. -/
theorem C2_free_then_inserted_witness :
    (SpaceIterator.new [0, 0, 0, 0, 1, 0, 0, 0] 3 0).next
      = (NextOut.out (some (Except.ok (Space.Empty ⟨0, field_size 3⟩))),
         ⟨[0, 0, 0, 0, 1, 0, 0, 0], 3, 0 + field_size 3, none⟩)
    ∧ (SpaceIterator.next ⟨[0, 0, 0, 0, 1, 0, 0, 0], 3, 4, none⟩).fst
      = NextOut.out (some (Except.ok (Space.Occupied ⟨4, [1, 0, 0, 0]⟩))) := by
  refine ⟨?_, rfl⟩
  exact C2_free_then_inserted (SpaceIterator.new [0, 0, 0, 0, 1, 0, 0, 0] 3 0) rfl
    (Or.inr rfl) rfl (by decide)

/-- C3: two consecutively produced successful results, with no intervening
seek, are gapless and ordered: the second result's offset equals the first
result's offset plus the first result's length. -/
theorem C3_gapless (s s1 s2 : SpaceIterator) (sp1 sp2 : Space)
    (hpk : s.peeked = none)
    (h1 : s.next = (NextOut.out (some (Except.ok sp1)), s1))
    (h2 : s1.next = (NextOut.out (some (Except.ok sp2)), s2)) :
    spaceOffset sp2 = spaceOffset sp1 + spaceLen sp1 := by
  obtain ⟨hle, hne, hr1, hs1⟩ := next_inv s s1 _ hpk h1
  have post := runStep_post s hle
  have hend : spaceOffset sp1 + spaceLen sp1 = (runStep s).snd := by
    cases sp1 with
    | Empty e =>
      obtain ⟨o, l⟩ := e
      obtain ⟨ha, hb2, hc⟩ := post.2.1 o l hr1
      simp only [spaceOffset, spaceLen]
      omega
    | Occupied oc =>
      obtain ⟨o, dd⟩ := oc
      obtain ⟨ha, hb2, hc, hd2, he⟩ := post.2.2.1 o dd hr1
      simp only [spaceOffset, spaceLen]
      exact hb2
  have hsucc := post.2.2.2.2 ⟨sp1, hr1⟩
  have hs1p : s1.peeked = none := by
    rw [hs1]
    exact hpk
  obtain ⟨hle2, hne2, hr2, hs2eq⟩ := next_inv s1 s2 _ hs1p h2
  have hruns1 : runStep s1 = scanLoop s.data (field_size s.field_body_size)
      (fieldHeads (field_size s.field_body_size) (s.data.drop (runStep s).snd)) none
      (runStep s).snd (runStep s).snd := by
    rw [hs1]
    rfl
  rcases hsucc with hnil | ⟨hh, hdech, hhne, hlen2⟩
  · exfalso
    have hfstnone : (runStep s1).fst = none := by
      rw [hruns1, hnil]
      rfl
    rw [hr2] at hfstnone
    simp at hfstnone
  · have hfs0 : 0 < field_size s.field_body_size := field_size_pos _
    have hcons : fieldHeads (field_size s.field_body_size) (s.data.drop (runStep s).snd)
        = ((s.data.drop (runStep s).snd).headD 0)
          :: fieldHeads (field_size s.field_body_size)
            ((s.data.drop (runStep s).snd).drop (field_size s.field_body_size)) :=
      fieldHeads_cons _ _ hfs0 hlen2
    have hpair : runStep s1 = (some (Except.ok sp2), (runStep s1).snd) := by
      rw [← hr2]
    have hEq : scanLoop s.data (field_size s.field_body_size)
        (((s.data.drop (runStep s).snd).headD 0)
          :: fieldHeads (field_size s.field_body_size)
            ((s.data.drop (runStep s).snd).drop (field_size s.field_body_size))) none
        (runStep s).snd (runStep s).snd = (some (Except.ok sp2), (runStep s1).snd) := by
      rw [← hcons, ← hruns1]
      exact hpair
    have happ := scanLoop_entry s.data (field_size s.field_body_size)
      ((s.data.drop (runStep s).snd).headD 0)
      (fieldHeads (field_size s.field_body_size)
        ((s.data.drop (runStep s).snd).drop (field_size s.field_body_size)))
      (runStep s).snd hh hdech hhne sp2 (runStep s1).snd hEq
    rw [happ]
    exact hend.symm

/-- Witness for C3 on [1,1,1,1,0,0,0,0]: the first pull yields Occupied at
offset 0 of four bytes and the second yields Empty at offset 4, contiguously. -/
theorem C3_gapless_witness :
    spaceOffset (Space.Empty ⟨4, 4⟩)
      = spaceOffset (Space.Occupied ⟨0, [1, 1, 1, 1]⟩)
        + spaceLen (Space.Occupied ⟨0, [1, 1, 1, 1]⟩) :=
  C3_gapless (SpaceIterator.new [1, 1, 1, 1, 0, 0, 0, 0] 3 0)
    ⟨[1, 1, 1, 1, 0, 0, 0, 0], 3, 4, none⟩ ⟨[1, 1, 1, 1, 0, 0, 0, 0], 3, 8, none⟩
    (Space.Occupied ⟨0, [1, 1, 1, 1]⟩) (Space.Empty ⟨4, 4⟩) rfl rfl rfl

/-- C4: a Continued field decoded immediately after a folded free field, with
no open live run, makes the pull return the named InvalidHeader error rather
than a Space. -/
theorem C4_continued_after_free_error (s : SpaceIterator)
    (hpk : s.peeked = none)
    (hfree : decodeHeader ((s.data.drop s.offset).headD 0) = Except.ok Header.Deleted ∨
             decodeHeader ((s.data.drop s.offset).headD 0) = Except.ok Header.Uninitialized)
    (hcont : decodeHeader ((s.data.drop (s.offset + field_size s.field_body_size)).headD 0)
        = Except.ok Header.Continued)
    (hlen : 2 * field_size s.field_body_size ≤ (s.data.drop s.offset).length) :
    s.next = (NextOut.out (some (Except.error ErrorKind.InvalidHeader)),
      { s with offset := s.offset + field_size s.field_body_size }) :=
  (next_free_then s Header.Continued hpk hfree hcont hlen).2 rfl

/-- Witness for C4: for buffer [0,0,0,0,2,0,0,0] with body size 3 the first
pull returns the InvalidHeader error. -/
theorem C4_continued_after_free_error_witness :
    (SpaceIterator.new [0, 0, 0, 0, 2, 0, 0, 0] 3 0).next
      = (NextOut.out (some (Except.error ErrorKind.InvalidHeader)),
         ⟨[0, 0, 0, 0, 2, 0, 0, 0], 3, 0 + field_size 3, none⟩) :=
  C4_continued_after_free_error (SpaceIterator.new [0, 0, 0, 0, 2, 0, 0, 0] 3 0) rfl
    (Or.inr rfl) rfl (by decide)

/-- C5 counterexample: on [1,0,0,0,2,0,0,0,1,0,0,0] with body size 3 the
scanner produces a single Occupied space covering three fields whose decoded
headers are Inserted, Continued, Inserted — the fields after the first are not
all Continued, refuting the claimed run shape. -/
theorem C5_counterexample :
    (SpaceIterator.new [1, 0, 0, 0, 2, 0, 0, 0, 1, 0, 0, 0] 3 0).next
      = (NextOut.out (some (Except.ok
          (Space.Occupied ⟨0, [1, 0, 0, 0, 2, 0, 0, 0, 1, 0, 0, 0]⟩))),
         ⟨[1, 0, 0, 0, 2, 0, 0, 0, 1, 0, 0, 0], 3, 12, none⟩)
    ∧ List.map decodeHeader (fieldHeads (field_size 3) [1, 0, 0, 0, 2, 0, 0, 0, 1, 0, 0, 0])
      = [Except.ok Header.Inserted, Except.ok Header.Continued, Except.ok Header.Inserted]
    ∧ Header.Inserted ≠ Header.Continued := by
  refine ⟨rfl, rfl, by decide⟩

/-- C5 (amended): every OccupiedSpace produced has data exactly equal to the
sub-range of the buffer from its offset over its length, with length a
positive integer multiple of the field width, and its first field decodes as
Inserted; an Inserted field followed by Continued fields merges into one run
and two consecutive Inserted fields produce two separate Occupied results,
but an Inserted field arriving immediately after a Continued field is folded
into the same occupied run, so the run need not be a single Inserted followed
only by Continued fields. -/
theorem C5_occupied_shape (s s' : SpaceIterator) (o : Nat) (d : List Nat)
    (hpk : s.peeked = none)
    (h : s.next = (NextOut.out (some (Except.ok (Space.Occupied ⟨o, d⟩))), s')) :
    d = listSlice s.data o (o + d.length)
    ∧ (∃ k, 0 < k ∧ d.length = k * field_size s.field_body_size)
    ∧ decodeHeader ((s.data.drop o).headD 0) = Except.ok Header.Inserted := by
  obtain ⟨hle, hne, hr, hs⟩ := next_inv s s' _ hpk h
  obtain ⟨ha, hb, hc, hd2, he⟩ := (runStep_post s hle).2.2.1 o d hr
  refine ⟨?_, hc, hd2⟩
  rw [hb]
  exact ha

/-- Witness for C5 on [1,0,0,0,1,2,2,2]: the first Occupied is the exact
four-byte sub-range starting at an Inserted field; the second pull reports the
second Inserted field separately; and on [1,0,0,0,2,0,0,0] the Inserted field
and its Continued field merge into one eight-byte Occupied, after which the
scan is exhausted. -/
theorem C5_occupied_shape_witness :
    ([1, 0, 0, 0] = listSlice [1, 0, 0, 0, 1, 2, 2, 2] 0 (0 + List.length [1, 0, 0, 0])
      ∧ (∃ k, 0 < k ∧ List.length [1, 0, 0, 0] = k * field_size 3)
      ∧ decodeHeader ((List.drop 0 [1, 0, 0, 0, 1, 2, 2, 2]).headD 0)
          = Except.ok Header.Inserted)
    ∧ (SpaceIterator.next ⟨[1, 0, 0, 0, 1, 2, 2, 2], 3, 4, none⟩).fst
        = NextOut.out (some (Except.ok (Space.Occupied ⟨4, [1, 2, 2, 2]⟩)))
    ∧ (SpaceIterator.new [1, 0, 0, 0, 2, 0, 0, 0] 3 0).next
        = (NextOut.out (some (Except.ok (Space.Occupied ⟨0, [1, 0, 0, 0, 2, 0, 0, 0]⟩))),
           ⟨[1, 0, 0, 0, 2, 0, 0, 0], 3, 8, none⟩)
    ∧ (SpaceIterator.next ⟨[1, 0, 0, 0, 2, 0, 0, 0], 3, 8, none⟩).fst = NextOut.out none := by
  refine ⟨?_, rfl, rfl, rfl⟩
  exact C5_occupied_shape (SpaceIterator.new [1, 0, 0, 0, 1, 2, 2, 2] 3 0)
    ⟨[1, 0, 0, 0, 1, 2, 2, 2], 3, 4, none⟩ 0 [1, 0, 0, 0] rfl rfl

/-- C6: a Continued field reached with no open run is silently skipped — a
pull behaves exactly like a pull from a scanner whose cursor is one field
further, so the skipped field is never part of any produced Space; at the
loop level the skip advances both the run start and the cursor by one field
width while prev_header stays None. -/
theorem C6_leading_continued_skipped (s : SpaceIterator) (data : List Nat) (fs : Nat)
    (b : Nat) (rest : List Nat) (start off : Nat)
    (hpk : s.peeked = none)
    (hb : decodeHeader ((s.data.drop s.offset).headD 0) = Except.ok Header.Continued)
    (hlen : field_size s.field_body_size ≤ (s.data.drop s.offset).length)
    (hb2 : decodeHeader b = Except.ok Header.Continued) :
    s.next = SpaceIterator.next { s with offset := s.offset + field_size s.field_body_size }
    ∧ scanLoop data fs (b :: rest) none start off
        = scanLoop data fs rest none (start + fs) (off + fs) := by
  refine ⟨next_skip_continued s hpk hb hlen, ?_⟩
  simp only [scanLoop, hb2]

/-- Witness for C6: on [2,0,0,0,0,0,0,0] with body size 3 the pull equals a
pull from cursor 4, the loop-level skip holds, and the scan yields exactly one
result, Empty at offset 4 of width 4, followed by exhaustion. -/
theorem C6_leading_continued_skipped_witness :
    ((SpaceIterator.new [2, 0, 0, 0, 0, 0, 0, 0] 3 0).next
        = SpaceIterator.next ⟨[2, 0, 0, 0, 0, 0, 0, 0], 3, 0 + field_size 3, none⟩
      ∧ scanLoop [] 4 [2] none 0 0 = scanLoop [] 4 [] none (0 + 4) (0 + 4))
    ∧ (SpaceIterator.new [2, 0, 0, 0, 0, 0, 0, 0] 3 0).next
        = (NextOut.out (some (Except.ok (Space.Empty ⟨4, 4⟩))),
           ⟨[2, 0, 0, 0, 0, 0, 0, 0], 3, 8, none⟩)
    ∧ (SpaceIterator.next ⟨[2, 0, 0, 0, 0, 0, 0, 0], 3, 8, none⟩).fst = NextOut.out none := by
  refine ⟨?_, rfl, rfl⟩
  exact C6_leading_continued_skipped (SpaceIterator.new [2, 0, 0, 0, 0, 0, 0, 0] 3 0)
    [] 4 2 [] 0 0 rfl rfl (by decide) rfl

/-- C7: peek is idempotent — a second peek returns the same result and leaves
the scanner in the same state — a pull after a peek behaves exactly as a pull
without the peek, and a pull with a cached lookahead returns exactly the
cached value while consuming the cache. -/
theorem C7_peek_idempotent (s : SpaceIterator) :
    SpaceIterator.peek (s.peek).snd = s.peek
    ∧ SpaceIterator.next (s.peek).snd = s.next
    ∧ (∀ r, s.peeked = some r → s.next = (NextOut.out (some r), { s with peeked := none })) := by
  obtain ⟨d, fb, off, pk⟩ := s
  cases pk with
  | some r =>
    refine ⟨rfl, rfl, ?_⟩
    intro r2 hr2
    simp only at hr2
    injection hr2 with hr2
    subst hr2
    rfl
  | none =>
    by_cases h1 : d.length < off
    · refine ⟨?_, ?_, fun r hr => Option.noConfusion hr⟩
      · simp only [SpaceIterator.peek, SpaceIterator.next, if_pos h1]
      · simp only [SpaceIterator.peek, SpaceIterator.next, if_pos h1]
    · by_cases h2 : d.drop off = []
      · refine ⟨?_, ?_, fun r hr => Option.noConfusion hr⟩
        · simp only [SpaceIterator.peek, SpaceIterator.next, if_neg h1, if_pos h2]
        · simp only [SpaceIterator.peek, SpaceIterator.next, if_neg h1, if_pos h2]
      · have hnext : SpaceIterator.next ⟨d, fb, off, none⟩
            = (NextOut.out (runStep ⟨d, fb, off, none⟩).fst,
               ⟨d, fb, (runStep ⟨d, fb, off, none⟩).snd, none⟩) := by
          simp only [SpaceIterator.next, if_neg h1, if_neg h2]
        have hpeek : SpaceIterator.peek ⟨d, fb, off, none⟩
            = (NextOut.out (runStep ⟨d, fb, off, none⟩).fst,
               ⟨d, fb, (runStep ⟨d, fb, off, none⟩).snd,
                (runStep ⟨d, fb, off, none⟩).fst⟩) := by
          simp only [SpaceIterator.peek, hnext]
        cases hr0 : (runStep ⟨d, fb, off, none⟩).fst with
        | some rr =>
          refine ⟨?_, ?_, fun r hr => Option.noConfusion hr⟩
          · rw [hpeek, hr0]
            rfl
          · rw [hpeek, hnext, hr0]
            rfl
        | none =>
          have hnext2 : SpaceIterator.next ⟨d, fb, off, none⟩
              = (NextOut.out none, ⟨d, fb, (runStep ⟨d, fb, off, none⟩).snd, none⟩) := by
            rw [hnext, hr0]
          have hfix := next_none_fix ⟨d, fb, off, none⟩
            ⟨d, fb, (runStep ⟨d, fb, off, none⟩).snd, none⟩ rfl hnext2
          refine ⟨?_, ?_, fun r hr => Option.noConfusion hr⟩
          · rw [hpeek, hr0]
            show SpaceIterator.peek ⟨d, fb, (runStep ⟨d, fb, off, none⟩).snd, none⟩
                = (NextOut.out none,
                   ⟨d, fb, (runStep ⟨d, fb, off, none⟩).snd, none⟩)
            simp only [SpaceIterator.peek, hfix.2]
          · rw [hpeek, hr0, hnext2]
            exact hfix.2

/-- Witness for C7: a scanner holding a cached lookahead returns exactly the
cached value from the next pull, consuming the cache. -/
theorem C7_peek_idempotent_witness :
    SpaceIterator.next ⟨[0, 1, 1, 1], 3, 0, some (Except.ok (Space.Empty ⟨0, 4⟩))⟩
      = (NextOut.out (some (Except.ok (Space.Empty ⟨0, 4⟩))), ⟨[0, 1, 1, 1], 3, 0, none⟩) :=
  (C7_peek_idempotent ⟨[0, 1, 1, 1], 3, 0, some (Except.ok (Space.Empty ⟨0, 4⟩))⟩).2.2
    (Except.ok (Space.Empty ⟨0, 4⟩)) rfl

/-- C8 counterexample: starting from cursor 5, seeking to 3 and then to 2
(with 2 le 3) leaves the cursor at 5, not at 3 — both seeks are no-ops — so
the claim's unconditional consequence that the cursor ends at x fails. -/
theorem C8_counterexample :
    (2 : Nat) ≤ 3
    ∧ ((SpaceIterator.new [0] 3 5).move_offset_forward 3).move_offset_forward 2
        = SpaceIterator.new [0] 3 5
    ∧ (((SpaceIterator.new [0] 3 5).move_offset_forward 3).move_offset_forward 2).offset ≠ 3 := by
  refine ⟨by decide, rfl, by decide⟩

/-- C8 (amended): move_offset_forward sets the cursor to the target and
discards the cached lookahead exactly when the target is strictly greater than
the cursor, and is a no-op otherwise; a seek to x followed by a seek to y le x
leaves the cursor where the first seek left it — equal to x whenever x was at
least the cursor beforehand — and the cursor is monotonically non-decreasing
under the operation. -/
theorem C8_move_offset_forward (s : SpaceIterator) (t x y : Nat) :
    (s.offset < t → s.move_offset_forward t = { s with offset := t, peeked := none })
    ∧ (t ≤ s.offset → s.move_offset_forward t = s)
    ∧ (y ≤ x → ((s.move_offset_forward x).move_offset_forward y).offset
        = (s.move_offset_forward x).offset)
    ∧ (y ≤ x → s.offset ≤ x → ((s.move_offset_forward x).move_offset_forward y).offset = x)
    ∧ s.offset ≤ (s.move_offset_forward t).offset := by
  have hoffmv : ∀ (st : SpaceIterator) (t2 : Nat),
      (st.move_offset_forward t2).offset = max st.offset t2 := by
    intro st t2
    unfold SpaceIterator.move_offset_forward
    by_cases h : st.offset < t2
    · rw [if_pos h]
      show t2 = max st.offset t2
      exact (Nat.max_eq_right (Nat.le_of_lt h)).symm
    · rw [if_neg h]
      exact (Nat.max_eq_left (Nat.le_of_not_lt h)).symm
  refine ⟨?_, ?_, ?_, ?_, ?_⟩
  · intro h
    unfold SpaceIterator.move_offset_forward
    rw [if_pos h]
  · intro h
    unfold SpaceIterator.move_offset_forward
    rw [if_neg (by omega)]
  · intro h
    rw [hoffmv, hoffmv]
    exact Nat.max_eq_left (Nat.le_trans h (Nat.le_max_right s.offset x))
  · intro h h2
    rw [hoffmv, hoffmv, Nat.max_eq_right h2]
    exact Nat.max_eq_left h
  · rw [hoffmv]
    exact Nat.le_max_left s.offset t

/-- Witness for C8: from cursor 0, seeking to 5 and then back-seeking to 3
leaves the cursor at 5. -/
theorem C8_move_offset_forward_witness :
    (((SpaceIterator.new [] 3 0).move_offset_forward 5).move_offset_forward 3).offset = 5 :=
  (C8_move_offset_forward (SpaceIterator.new [] 3 0) 0 5 3).2.2.2.1 (by decide) (by decide)

/-- C9: when the pull fails with InvalidHeader on a Continued field following
a folded free field, the cursor has already advanced exactly one field, past
the folded free field (which is therefore never reported in any Space), and
the following pull does not re-observe the error: it behaves exactly like a
pull from a cursor two fields ahead, treating the offending Continued field as
a leading continuation and skipping it. -/
theorem C9_error_cursor_then_skip (s : SpaceIterator)
    (hpk : s.peeked = none)
    (hfree : decodeHeader ((s.data.drop s.offset).headD 0) = Except.ok Header.Deleted ∨
             decodeHeader ((s.data.drop s.offset).headD 0) = Except.ok Header.Uninitialized)
    (hcont : decodeHeader ((s.data.drop (s.offset + field_size s.field_body_size)).headD 0)
        = Except.ok Header.Continued)
    (hlen : 2 * field_size s.field_body_size ≤ (s.data.drop s.offset).length) :
    (s.next).fst = NextOut.out (some (Except.error ErrorKind.InvalidHeader))
    ∧ ((s.next).snd).offset = s.offset + field_size s.field_body_size
    ∧ SpaceIterator.next (s.next).snd
        = SpaceIterator.next { s with offset := s.offset + 2 * field_size s.field_body_size } := by
  obtain ⟨d, fb, off, pk⟩ := s
  simp only at hpk hfree hcont hlen
  subst hpk
  have herr := (next_free_then ⟨d, fb, off, none⟩ Header.Continued rfl hfree hcont hlen).2 rfl
  have hlen2 : (d.drop off).length = d.length - off := List.length_drop off d
  have hlen3 : field_size fb ≤ (d.drop (off + field_size fb)).length := by
    rw [List.length_drop]
    omega
  refine ⟨by rw [herr], by rw [herr], ?_⟩
  rw [herr]
  have hskip := next_skip_continued ⟨d, fb, off + field_size fb, none⟩ rfl hcont hlen3
  rw [hskip]
  show SpaceIterator.next ⟨d, fb, off + field_size fb + field_size fb, none⟩
      = SpaceIterator.next ⟨d, fb, off + 2 * field_size fb, none⟩
  have harith : off + field_size fb + field_size fb = off + 2 * field_size fb := by ring
  rw [harith]

/-- Witness for C9: on [0,0,0,0,2,0,0,0] with body size 3 the first pull
errors with the cursor at 4, and the pull after the error returns the
exhaustion result rather than the same error. -/
theorem C9_error_cursor_then_skip_witness :
    ((SpaceIterator.new [0, 0, 0, 0, 2, 0, 0, 0] 3 0).next).fst
      = NextOut.out (some (Except.error ErrorKind.InvalidHeader))
    ∧ (((SpaceIterator.new [0, 0, 0, 0, 2, 0, 0, 0] 3 0).next).snd).offset = 0 + field_size 3
    ∧ SpaceIterator.next ⟨[0, 0, 0, 0, 2, 0, 0, 0], 3, 4, none⟩
        = (NextOut.out none, ⟨[0, 0, 0, 0, 2, 0, 0, 0], 3, 8, none⟩) := by
  refine ⟨?_, ?_, rfl⟩
  · exact (C9_error_cursor_then_skip (SpaceIterator.new [0, 0, 0, 0, 2, 0, 0, 0] 3 0) rfl
      (Or.inr rfl) rfl (by decide)).1
  · exact (C9_error_cursor_then_skip (SpaceIterator.new [0, 0, 0, 0, 2, 0, 0, 0] 3 0) rfl
      (Or.inr rfl) rfl (by decide)).2.1

/-- C10: with the lookahead cache empty and the cursor strictly past the
buffer length — reachable by a forward seek past the end or by constructing
the scanner with such a start offset — the next pull hits the out-of-bounds
slice index data[offset..] (modelled by NextOut.oob) instead of returning the
exhaustion result; the exhaustion check is only safe when the cursor is at
most the buffer length. -/
theorem C10_cursor_past_end (s : SpaceIterator) (data : List Nat) (fbs t : Nat)
    (hpk : s.peeked = none) (hover : s.data.length < s.offset) (ht : data.length < t) :
    (s.next).fst = NextOut.oob
    ∧ (SpaceIterator.next ((SpaceIterator.new data fbs 0).move_offset_forward t)).fst
        = NextOut.oob
    ∧ (SpaceIterator.next (SpaceIterator.new data fbs t)).fst = NextOut.oob := by
  refine ⟨?_, ?_, ?_⟩
  · obtain ⟨d, fb, off, pk⟩ := s
    simp only at hpk hover
    subst hpk
    simp only [SpaceIterator.next, if_pos hover]
  · have hmv : (SpaceIterator.new data fbs 0).move_offset_forward t = ⟨data, fbs, t, none⟩ := by
      unfold SpaceIterator.move_offset_forward
      rw [if_pos (show (SpaceIterator.new data fbs 0).offset < t by
        show 0 < t
        omega)]
      rfl
    rw [hmv]
    simp only [SpaceIterator.next, if_pos ht]
  · simp only [SpaceIterator.new, SpaceIterator.next, if_pos ht]

/-- Witness for C10: an empty buffer with start offset 1, a one-byte buffer
forward-seeked to 2, and a one-byte buffer constructed at offset 2 all panic
on the next pull. -/
theorem C10_cursor_past_end_witness :
    (SpaceIterator.next (SpaceIterator.new [] 3 1)).fst = NextOut.oob
    ∧ (SpaceIterator.next ((SpaceIterator.new [0] 3 0).move_offset_forward 2)).fst = NextOut.oob
    ∧ (SpaceIterator.next (SpaceIterator.new [0] 3 2)).fst = NextOut.oob :=
  C10_cursor_past_end (SpaceIterator.new [] 3 1) [0] 3 2 rfl (by decide) (by decide)
